import Mathlib

/-!
# Verification of the duckdb-manifold adapter core

Shallow embedding of the adapter layer of the `duckdb-manifold` extension:
the handle cache (`src/scanner/mod.rs`), schema discovery (`src/schema.rs`,
sampling loops in `src/scanner/{entities,edges}.rs`), the paginated batch
scanner (`scan_entity_batch` / `scan_edge_batch` / `func_inner`) and the
record projector (`value_to_duckdb_string`, `populate_*_output`).

The storage collaborator (`manifoldb_storage`) is external to the repository;
its cursor is modelled from the spec (§4.3/§6): a collection is an optional
list of `(key, rawValue)` entries in key order (`none` models a missing
table, i.e. `tx.cursor(name)` returning `Err`); `seek_first` yields the head,
`seek k` positions on the first entry with key `≥ k`, `next` advances one
entry.  Keys are modelled as `Nat` (the spec only requires that continuation
keys order consistently with cursor iteration order).  Record decoding
(`Entity::decode` / `Edge::decode`, external encoder) is modelled as an
arbitrary function `decode : α → Option ρ`, `none` modelling a decode
failure that the scanner skips.
-/

/-- Storage keys: opaque, totally ordered positions (spec §3, Continuation
Key).  Modelled as `Nat`. -/
abbrev Key := Nat

/-- A storage collection as seen through a read transaction: `none` when the
table does not exist (`tx.cursor` returns `Err`), otherwise the list of
`(key, raw value)` entries in cursor iteration order. -/
abbrev Collection (α : Type) := Option (List (Key × α))

/-- `BATCH_SIZE` from `src/scanner/mod.rs`. -/
def BATCH_SIZE : Nat := 1024

/-- `SCHEMA_SAMPLE_SIZE` from `src/scanner/mod.rs`. -/
def SCHEMA_SAMPLE_SIZE : Nat := 100

/-- The `while entities.len() < batch_size { cursor.next() }` loop of
`scan_entity_batch` / `scan_edge_batch`: consume entries from `rest`,
skipping entries that fail to decode, appending decoded records to `acc`
and recording each successfully decoded entry's key in `lastKey`, until a
full batch is collected or the cursor is exhausted. -/
def scanRest (decode : α → Option ρ) (batchSize : Nat) :
    List (Key × α) → List ρ → Option Key → List ρ × Option Key
  | [], acc, lastKey => (acc, lastKey)
  | (k, v) :: rest, acc, lastKey =>
    if acc.length < batchSize then
      match decode v with
      | some r => scanRest decode batchSize rest (acc ++ [r]) (some k)
      | none => scanRest decode batchSize rest acc lastKey
    else
      (acc, lastKey)

/-- Cursor positioning step of `scan_entity_batch` / `scan_edge_batch`
(entities.rs:239-248, edges.rs:229-238): with no continuation key,
`seek_first` (the whole list); with continuation key `k`, `seek(k)` (drop
entries with key `< k`, landing on the first entry with key `≥ k`) followed
by one `next()` (drop that entry too). -/
def positionCursor (entries : List (Key × α)) : Option Key → List (Key × α)
  | none => entries
  | some k => (entries.dropWhile (fun e => e.1 < k)).tail

/-- `scan_entity_batch` (entities.rs:228-280) and `scan_edge_batch`
(edges.rs:218-270), which are textually identical up to the record type and
table name: position the cursor after the continuation key, process the
first entry, then loop until the batch is full.  Returns the decoded
records and the key of the last successfully decoded entry (`None` if none
was decoded). -/
def scanBatchCore (decode : α → Option ρ) (coll : Collection α)
    (startAfterKey : Option Key) (batchSize : Nat) : List ρ × Option Key :=
  match coll with
  | none => ([], none)
  | some entries =>
    match positionCursor entries startAfterKey with
    | [] => ([], none)
    | (k, v) :: rest =>
      match decode v with
      | some r => scanRest decode batchSize rest [r] (some k)
      | none => scanRest decode batchSize rest [] none

/-- Per-invocation scan state (`ManifoldEntitiesInitData` /
`ManifoldEdgesInitData`): done flag and continuation key. -/
structure InitData where
  done : Bool
  lastKey : Option Key
deriving Repr, DecidableEq

/-- Errors surfaced by the adapter; `databaseOpenError` models
`ManifoldScannerError::DatabaseOpenError` / a failed `RedbEngine::open`. -/
inductive EngineError where
  | databaseOpenError (path : String)
deriving Repr, DecidableEq

/-- `ManifoldEntitiesVTab::func_inner` (entities.rs:133-173) and
`ManifoldEdgesVTab::func_inner` (edges.rs:126-167): one produce call.
`engine` is the outcome of `get_cached_engine` followed by opening the
collection's cursor (the only storage access).  Returns the produced batch
with the updated scan state, and a flag recording whether storage was
touched (engine lookup / transaction / cursor) on this call. -/
def funcInner (decode : α → Option ρ)
    (engine : Except EngineError (Collection α)) (batchSize : Nat)
    (st : InitData) :
    Except EngineError (List ρ × InitData) × Bool :=
  if st.done then
    (.ok ([], st), false)
  else
    match engine with
    | .error e => (.error e, true)
    | .ok coll =>
      let (records, nextKey) := scanBatchCore decode coll st.lastKey batchSize
      if records.isEmpty then
        (.ok ([], { st with done := true }), true)
      else
        (.ok (records, { done := false, lastKey := nextKey }), true)

/-- Drive a scan: repeatedly call `funcInner` (with a successfully acquired
engine), collecting the produced batches, stopping right after the first
empty (terminal) batch.  `fuel` bounds the number of produce calls. -/
def driveScan (decode : α → Option ρ) (coll : Collection α)
    (batchSize : Nat) : Nat → InitData → List (List ρ)
  | 0, _ => []
  | fuel + 1, st =>
    match funcInner decode (.ok coll) batchSize st with
    | (.error _, _) => []
    | (.ok (out, st'), _) =>
      if out.isEmpty then [out]
      else out :: driveScan decode coll batchSize fuel st'

/-- The continuation key after the first `c` entries of a collection have
been returned: `none` before the first batch (spec §3), otherwise the raw
storage key of the `c`-th entry. -/
def keyAt (entries : List (Key × α)) (c : Nat) : Option Key :=
  if c = 0 then none else (entries[c - 1]?).map Prod.fst

/-- The expected batching of a record list: consecutive slices of `B`
records (the last slice possibly shorter).  Spec-side notion used to state
pagination completeness. -/
def chunks (B : Nat) : List ρ → List (List ρ)
  | [] => []
  | x :: xs => (x :: xs).take (max B 1) :: chunks B ((x :: xs).drop (max B 1))
termination_by l => l.length
decreasing_by
  simp only [List.length_drop]
  exact Nat.sub_lt (by simp)
    (Nat.lt_of_lt_of_le Nat.one_pos (Nat.le_max_right B 1))

/-- The `while count < SCHEMA_SAMPLE_SIZE` loop of `discover_entity_schema`
(entities.rs:194-205) and `discover_edge_schema` (edges.rs:185-196): while
`count < bound`, read the next entry, observe it if it decodes, and
increment `count` — for every entry read, whether or not it decoded. -/
def sampleRest (decode : α → Option ρ) (bound : Nat) :
    List (Key × α) → Nat → List ρ → List ρ
  | [], _, acc => acc
  | (_, v) :: rest, count, acc =>
    if count < bound then
      sampleRest decode bound rest (count + 1) (acc ++ (decode v).toList)
    else acc

/-- The sampling phase of `discover_entity_schema` (entities.rs:186-211) and
`discover_edge_schema` (edges.rs:178-202): `seek_first`, observe the first
record if it decodes (`count` starts at 1), then run the bounded loop.
Returns the observed (successfully decoded) records in order.  A missing
table or empty collection yields no observations. -/
def sampleDecoded (decode : α → Option ρ) (coll : Collection α)
    (bound : Nat) : List ρ :=
  match coll with
  | none => []
  | some entries =>
    match entries with
    | [] => []
    | (_, v) :: rest => sampleRest decode bound rest 1 (decode v).toList

/-- A collection of 101 records with keys and values `0..100`; the record
with value 0 will fail to decode below. -/
def c3Collection : List (Key × Nat) := (List.range 101).map (fun i => (i, i))

/-- `manifoldb_core::types::Value` (external collaborator, modelled from
the spec §3): a closed sum of null, boolean, integer, float, string, byte
sequence, array, dense vector, sparse vector and multi-vector.  Floats are
kept abstract (type parameter `F`); their textual renderings (`Display`
and serde-JSON) are supplied as functions where needed.  Bytes are `Nat`
values (the `u8` range plays no role in the claims). -/
inductive Value (F : Type) where
  | Null : Value F
  | Bool (b : Bool) : Value F
  | Int (i : Int) : Value F
  | Float (f : F) : Value F
  | String (s : String) : Value F
  | Bytes (b : List Nat) : Value F
  | Array (elems : List (Value F)) : Value F
  | Vector (v : List F) : Value F
  | SparseVector (sv : List (Nat × F)) : Value F
  | MultiVector (mv : List (List F)) : Value F

/-- `manifoldb_core::types::Entity` (external, modelled from the spec §3):
stable id, label list, property map.  The property map (a Rust `HashMap`)
is an association list with unique keys. -/
structure Entity (F : Type) where
  id : Nat
  labels : List String
  properties : List (String × Value F)

/-- `manifoldb_core::types::Edge` (external, modelled from the spec §3). -/
structure Edge (F : Type) where
  id : Nat
  source : Nat
  target : Nat
  edge_type : String
  properties : List (String × Value F)

/-- Lower-case hex digit, for JSON `\u00..` escapes. -/
def hexDigit (n : Nat) : Char :=
  if n < 10 then Char.ofNat (48 + n) else Char.ofNat (87 + n)

/-- JSON string escaping as performed by `serde_json::to_string` on a
string (part of the canonical JSON text form of spec §4.4): quote,
backslash and control characters are escaped, everything else is kept. -/
def jsonEscapeChar (c : Char) : String :=
  if c = '"' then "\\\""
  else if c = '\\' then "\\\\"
  else if c = '\n' then "\\n"
  else if c = '\r' then "\\r"
  else if c = '\t' then "\\t"
  else if c.toNat < 32 then
    "\\u00" ++ String.mk [hexDigit (c.toNat / 16), hexDigit (c.toNat % 16)]
  else String.singleton c

/-- `serde_json::to_string` on a string: quoted, escaped. -/
def jsonQuote (s : String) : String :=
  "\"" ++ String.join (s.toList.map jsonEscapeChar) ++ "\""

/-- JSON array syntax over already-rendered items. -/
def jsonArrayString (items : List String) : String :=
  "[" ++ String.intercalate "," items ++ "]"

/-- JSON object syntax for a sparse vector (index/value pairs). -/
def jsonSparseString (jsonF : F → String) (sv : List (Nat × F)) : String :=
  "\x7b" ++ String.intercalate ","
    (sv.map (fun p => jsonQuote (toString p.1) ++ ":" ++ jsonF p.2)) ++ "\x7d"

mutual
/-- Modelled from the spec: the canonical JSON serialization of a `Value`
(the `Serialize` impl of `manifoldb_core::types::Value` consumed through
`serde_json::to_string`, an external collaborator; spec §4.4 "canonical
JSON text form" and §8: the array value `[1,2,3]` serializes as the text
`[1,2,3]`).  `jsonF` renders a float the way serde_json does.
Serialization of these values always succeeds, so the
`unwrap_or_else` fallbacks in the source are never taken in the model. -/
def valueToJson (jsonF : F → String) : Value F → String
  | .Null => "null"
  | .Bool b => cond b "true" "false"
  | .Int i => toString i
  | .Float f => jsonF f
  | .String s => jsonQuote s
  | .Bytes b => jsonArrayString (b.map (fun n => toString n))
  | .Array elems => jsonArrayString (valueListToJson jsonF elems)
  | .Vector v => jsonArrayString (v.map jsonF)
  | .SparseVector sv => jsonSparseString jsonF sv
  | .MultiVector mv =>
    jsonArrayString (mv.map (fun v => jsonArrayString (v.map jsonF)))

/-- JSON serialization of each element of a value list. -/
def valueListToJson (jsonF : F → String) : List (Value F) → List String
  | [] => []
  | v :: vs => valueToJson jsonF v :: valueListToJson jsonF vs
end

/-- `base64_encode` from entities.rs:337-363: manual base64 over 3-byte
chunks with `=` padding (absent bytes read as 0, exactly as
`chunk.get(i).copied().unwrap_or(0)` does). -/
def base64Char (i : Nat) : Char :=
  "ABCDEFGHIJKLMNOPQRSTUVWXYZabcdefghijklmnopqrstuvwxyz0123456789+/".toList.getD
    i 'A'

def base64_encode : List Nat → String
  | [] => ""
  | [b0] =>
    String.mk [base64Char ((b0 >>> 2) &&& 63),
      base64Char (((b0 <<< 4) ||| (0 >>> 4)) &&& 63), '=', '=']
  | [b0, b1] =>
    String.mk [base64Char ((b0 >>> 2) &&& 63),
      base64Char (((b0 <<< 4) ||| (b1 >>> 4)) &&& 63),
      base64Char (((b1 <<< 2) ||| (0 >>> 6)) &&& 63), '=']
  | b0 :: b1 :: b2 :: rest =>
    String.mk [base64Char ((b0 >>> 2) &&& 63),
      base64Char (((b0 <<< 4) ||| (b1 >>> 4)) &&& 63),
      base64Char (((b1 <<< 2) ||| (b2 >>> 6)) &&& 63),
      base64Char (b2 &&& 63)] ++ base64_encode rest

/-- `value_to_json_string` from entities.rs:321-334.  Scalar branches use
the Rust `Display` rendering (`displayF` for floats); composite branches
delegate to serde_json (`jsonF` for floats), whose `unwrap_or_else`
fallbacks are dead in the model because serialization always succeeds. -/
def value_to_json_string (displayF jsonF : F → String) : Value F → String
  | .Null => "null"
  | .Bool b => cond b "true" "false"
  | .Int i => toString i
  | .Float f => displayF f
  | .String s => jsonQuote s
  | .Bytes b => jsonQuote (base64_encode b)
  | .Array elems => jsonArrayString (valueListToJson jsonF elems)
  | .Vector v => jsonArrayString (v.map jsonF)
  | .SparseVector sv => jsonSparseString jsonF sv
  | .MultiVector mv =>
    jsonArrayString (mv.map (fun v => jsonArrayString (v.map jsonF)))

/-- `value_to_duckdb_string` from entities.rs:366-376: scalars render
directly, every other variant falls through to `value_to_json_string`. -/
def entities_value_to_duckdb_string (displayF jsonF : F → String) :
    Value F → String
  | .Null => ""
  | .Bool b => cond b "true" "false"
  | .Int i => toString i
  | .Float f => displayF f
  | .String s => s
  | v => value_to_json_string displayF jsonF v

/-- `value_to_duckdb_string` from edges.rs:323-337: scalars render
directly; each composite variant is serialized with serde_json — in
particular `Bytes` is serialized directly as a `Vec<u8>`, a JSON array of
numbers, unlike the entities version. -/
def edges_value_to_duckdb_string (displayF jsonF : F → String) :
    Value F → String
  | .Null => ""
  | .Bool b => cond b "true" "false"
  | .Int i => toString i
  | .Float f => displayF f
  | .String s => s
  | .Bytes b => jsonArrayString (b.map (fun n => toString n))
  | .Array elems => jsonArrayString (valueListToJson jsonF elems)
  | .Vector v => jsonArrayString (v.map jsonF)
  | .SparseVector sv => jsonSparseString jsonF sv
  | .MultiVector mv =>
    jsonArrayString (mv.map (fun v => jsonArrayString (v.map jsonF)))

/-- `ColumnType` from src/schema.rs:16-23 (the `LogicalTypeId` conversions
are DuckDB glue and not modelled). -/
inductive ColumnType where
  | Boolean
  | Bigint
  | Double
  | Varchar
  | Blob
deriving Repr, DecidableEq

/-- `DiscoveredColumn` from src/schema.rs:55-61. -/
structure DiscoveredColumn where
  name : String
  column_type : ColumnType
  nullable : Bool
deriving Repr, DecidableEq

/-- `manifold_value_to_column_type` from src/schema.rs:71-86. -/
def manifold_value_to_column_type : Value F → ColumnType
  | .Null => .Varchar
  | .Bool _ => .Boolean
  | .Int _ => .Bigint
  | .Float _ => .Double
  | .String _ => .Varchar
  | .Bytes _ => .Blob
  | .Array _ => .Varchar
  | .Vector _ => .Varchar
  | .SparseVector _ => .Varchar
  | .MultiVector _ => .Varchar

/-- One `property_types.entry(key).or_insert_with(Vec::new)` update from
`observe_entity` / `observe_edge` (src/schema.rs:111-123, 187-199): find
the key's type list, append the observed type if not already present,
insert a fresh singleton list for an unseen key. -/
def observeProp (pt : List (String × List ColumnType)) (key : String)
    (t : ColumnType) : List (String × List ColumnType) :=
  match pt with
  | [] => [(key, [t])]
  | (k, ts) :: rest =>
    if k = key then (k, if ts.contains t then ts else ts ++ [t]) :: rest
    else (k, ts) :: observeProp rest key t

/-- `SchemaDiscovery` from src/schema.rs:92-97.  The `property_types`
`HashMap<String, Vec<ColumnType>>` is modelled as an association list with
one entry per property name; the map's arbitrary iteration order is
immaterial because `finalize` sorts the keys (determinism over key order
is proved below). -/
structure SchemaDiscovery where
  property_types : List (String × List ColumnType)
  sample_count : Nat

def SchemaDiscovery.new : SchemaDiscovery := ⟨[], 0⟩

/-- `SchemaDiscovery::observe_entity` from src/schema.rs:108-124. -/
def SchemaDiscovery.observe_entity (d : SchemaDiscovery)
    (properties : List (String × Value F)) : SchemaDiscovery :=
  ⟨properties.foldl
      (fun pt kv => observeProp pt kv.1 (manifold_value_to_column_type kv.2))
      d.property_types,
    d.sample_count + 1⟩

/-- The lexicographic order used by `Vec::<String>::sort` (UTF-8 byte
order, which coincides with codepoint order), as a relation on the
character data of the strings. -/
def strLe (a b : String) : Prop := a.data ≤ b.data

instance : DecidableRel strLe := fun a b =>
  inferInstanceAs (Decidable (a.data ≤ b.data))

instance : IsTotal String strLe := ⟨fun a b => le_total a.data b.data⟩

instance : IsTrans String strLe :=
  ⟨fun _ _ _ h1 h2 => le_trans (h1 : _ ≤ _) h2⟩

instance : IsAntisymm String strLe :=
  ⟨fun _ _ h1 h2 => String.ext (le_antisymm (h1 : _ ≤ _) h2)⟩

/-- The property-derived columns emitted by both `finalize` functions
(src/schema.rs:150-159, 239-248): property names sorted (`Vec::sort`,
modelled by insertion sort — any correct sort of the same keys yields the
same list), each prefixed `prop_`, always `Varchar`, always nullable. -/
def propertyColumns (pt : List (String × List ColumnType)) :
    List DiscoveredColumn :=
  ((pt.map Prod.fst).insertionSort strLe).map
    (fun name => ⟨"prop_" ++ name, .Varchar, true⟩)

/-- `SchemaDiscovery::finalize` from src/schema.rs:132-162: fixed columns
`id`, `labels`, then the sorted property columns. -/
def SchemaDiscovery.finalize (d : SchemaDiscovery) : List DiscoveredColumn :=
  ⟨"id", .Varchar, false⟩ :: ⟨"labels", .Varchar, false⟩ ::
    propertyColumns d.property_types

/-- `EdgeSchemaDiscovery` from src/schema.rs:171-174. -/
structure EdgeSchemaDiscovery where
  property_types : List (String × List ColumnType)
  sample_count : Nat

def EdgeSchemaDiscovery.new : EdgeSchemaDiscovery := ⟨[], 0⟩

/-- `EdgeSchemaDiscovery::observe_edge` from src/schema.rs:184-200. -/
def EdgeSchemaDiscovery.observe_edge (d : EdgeSchemaDiscovery)
    (properties : List (String × Value F)) : EdgeSchemaDiscovery :=
  ⟨properties.foldl
      (fun pt kv => observeProp pt kv.1 (manifold_value_to_column_type kv.2))
      d.property_types,
    d.sample_count + 1⟩

/-- `EdgeSchemaDiscovery::finalize` from src/schema.rs:210-251: fixed
columns `id`, `source`, `target`, `edge_type`, then the sorted property
columns. -/
def EdgeSchemaDiscovery.finalize (d : EdgeSchemaDiscovery) :
    List DiscoveredColumn :=
  ⟨"id", .Varchar, false⟩ :: ⟨"source", .Varchar, false⟩ ::
    ⟨"target", .Varchar, false⟩ :: ⟨"edge_type", .Varchar, false⟩ ::
    propertyColumns d.property_types

/-- `discover_entity_schema` (entities.rs:177-222), column-list part (the
companion name→index map is position-derived data): sample up to
`SCHEMA_SAMPLE_SIZE` records, observe each decoded record's properties,
finalize. -/
def discover_entity_schema (decodeEntity : α → Option (Entity F))
    (coll : Collection α) : List DiscoveredColumn :=
  ((sampleDecoded decodeEntity coll SCHEMA_SAMPLE_SIZE).foldl
    (fun d e => d.observe_entity e.properties) SchemaDiscovery.new).finalize

/-- `discover_edge_schema` (edges.rs:170-212), column-list part. -/
def discover_edge_schema (decodeEdge : α → Option (Edge F))
    (coll : Collection α) : List DiscoveredColumn :=
  ((sampleDecoded decodeEdge coll SCHEMA_SAMPLE_SIZE).foldl
    (fun d e => d.observe_edge e.properties) EdgeSchemaDiscovery.new).finalize

/-- The cell that `populate_entity_output` (entities.rs:305-314) writes for
a property column: iterating the record's property map, a column named
`prop_<name>` receives `value_to_duckdb_string` of the value when `name`
is in the map; a property column whose name is not in the map is never
written (the cell stays unset, `none`). -/
def entity_prop_cell (displayF jsonF : F → String) (e : Entity F)
    (name : String) : Option String :=
  (e.properties.lookup name).map
    (entities_value_to_duckdb_string displayF jsonF)

/-- The property-column cell written by `populate_edge_output`
(edges.rs:307-316). -/
def edge_prop_cell (displayF jsonF : F → String) (g : Edge F)
    (name : String) : Option String :=
  (g.properties.lookup name).map
    (edges_value_to_duckdb_string displayF jsonF)

/-- A storage handle (`Arc<RedbEngine>` identity), identified by a numeric
id. -/
abbrev Handle := Nat

/-- The process-wide engine cache (`ENGINE_CACHE`, src/scanner/mod.rs:25):
`db_path → Arc<RedbEngine>`, modelled as an association list. -/
abbrev EngineCache := List (String × Handle)

/-- `get_cached_engine` (src/scanner/mod.rs:32-42).  `openFn` models
`RedbEngine::open` (external collaborator): `none` is an open failure.
Returns the call's result, the cache mapping after the call, and whether
`RedbEngine::open` was invoked.  The mutex around the map serializes
concurrent calls, so a concurrent execution is a sequential interleaving
of these steps. -/
def get_cached_engine (openFn : String → Option Handle)
    (cache : EngineCache) (db_path : String) :
    Except EngineError Handle × EngineCache × Bool :=
  match cache.lookup db_path with
  | some engine => (.ok engine, cache, false)
  | none =>
    match openFn db_path with
    | some engine => (.ok engine, cache ++ [(db_path, engine)], true)
    | none => (.error (.databaseOpenError db_path), cache, true)

/-- Run a sequence of acquire calls against the cache, returning the final
cache mapping. -/
def runAcquires (openFn : String → Option Handle) :
    List String → EngineCache → EngineCache
  | [], cache => cache
  | p :: ps, cache =>
    runAcquires openFn ps (get_cached_engine openFn cache p).2.1

theorem chunks_nil (B : Nat) : chunks B ([] : List ρ) = [] := by
  rw [chunks]

theorem chunks_cons (B : Nat) (hB : 0 < B) (x : ρ) (xs : List ρ) :
    chunks B (x :: xs) = (x :: xs).take B :: chunks B ((x :: xs).drop B) := by
  rw [chunks, Nat.max_eq_left hB]

theorem chunks_flatten_aux (B : Nat) (hB : 0 < B) :
    ∀ (n : Nat) (l : List ρ), l.length ≤ n → (chunks B l).flatten = l := by
  intro n
  induction n with
  | zero =>
    intro l hl
    have hnil : l = [] := List.length_eq_zero.mp (Nat.le_zero.mp hl)
    subst hnil
    simp [chunks_nil]
  | succ n ih =>
    intro l hl
    cases l with
    | nil => simp [chunks_nil]
    | cons x xs =>
      rw [chunks_cons B hB x xs, List.flatten_cons,
        ih ((x :: xs).drop B) (by simp only [List.length_drop]; omega),
        List.take_append_drop]

theorem chunks_flatten (B : Nat) (hB : 0 < B) (l : List ρ) :
    (chunks B l).flatten = l :=
  chunks_flatten_aux B hB l.length l le_rfl

theorem chunks_ne_nil_aux (B : Nat) (hB : 0 < B) :
    ∀ (n : Nat) (l : List ρ), l.length ≤ n → ∀ b ∈ chunks B l, b ≠ [] := by
  intro n
  induction n with
  | zero =>
    intro l hl
    have hnil : l = [] := List.length_eq_zero.mp (Nat.le_zero.mp hl)
    subst hnil
    simp [chunks_nil]
  | succ n ih =>
    intro l hl b hb
    cases l with
    | nil => rw [chunks_nil] at hb; simp at hb
    | cons x xs =>
      rw [chunks_cons B hB x xs] at hb
      rcases List.mem_cons.mp hb with hb | hb
      · subst hb
        apply List.ne_nil_of_length_pos
        rw [List.length_take]
        exact lt_min hB (by simp)
      · exact ih ((x :: xs).drop B)
          (by simp only [List.length_drop]; omega) b hb

theorem chunks_ne_nil (B : Nat) (hB : 0 < B) (l : List ρ) :
    ∀ b ∈ chunks B l, b ≠ [] :=
  chunks_ne_nil_aux B hB l.length l le_rfl

theorem chunks_length_aux (B : Nat) (hB : 0 < B) :
    ∀ (n : Nat) (l : List ρ), l.length ≤ n →
      (chunks B l).length = (l.length + B - 1) / B := by
  intro n
  induction n with
  | zero =>
    intro l hl
    have hnil : l = [] := List.length_eq_zero.mp (Nat.le_zero.mp hl)
    subst hnil
    rw [chunks_nil]
    simp [Nat.div_eq_of_lt (by omega : B - 1 < B)]
  | succ n ih =>
    intro l hl
    cases l with
    | nil =>
      rw [chunks_nil]
      simp [Nat.div_eq_of_lt (by omega : B - 1 < B)]
    | cons x xs =>
      have hpos : 0 < (x :: xs).length := by simp
      rw [chunks_cons B hB x xs, List.length_cons,
        ih ((x :: xs).drop B) (by simp only [List.length_drop]; omega),
        List.length_drop]
      rcases le_or_lt B (x :: xs).length with hcase | hcase
      · have h1 : (x :: xs).length - B + B - 1 = (x :: xs).length - 1 := by
          omega
        have h2 : (x :: xs).length + B - 1 = ((x :: xs).length - 1) + B := by
          omega
        rw [h1, h2, Nat.add_div_right _ hB]
      · have hdz : (x :: xs).length - B = 0 := by omega
        rw [hdz, Nat.div_eq_of_lt (by omega : 0 + B - 1 < B)]
        have hone : ((x :: xs).length + B - 1) / B = 1 :=
          Nat.div_eq_of_lt_le (by omega) (by omega)
        omega

theorem scanRest_all (decode : α → Option ρ) (f : Key × α → ρ) (B : Nat) :
    ∀ (rest : List (Key × α)), (∀ e ∈ rest, decode e.2 = some (f e)) →
    ∀ (acc : List ρ) (lk : Option Key),
      scanRest decode B rest acc lk =
        (acc ++ ((rest.take (B - acc.length)).map f),
         (rest.take (B - acc.length)).foldl (fun _ e => some e.1) lk) := by
  intro rest
  induction rest with
  | nil => intro _ acc lk; simp [scanRest]
  | cons e rest ih =>
    intro hd acc lk
    obtain ⟨k, v⟩ := e
    have hdv : decode v = some (f (k, v)) := hd (k, v) (List.mem_cons_self _ _)
    by_cases hlt : acc.length < B
    · have htake : B - acc.length = (B - (acc.length + 1)) + 1 := by omega
      rw [scanRest, if_pos hlt, hdv]
      dsimp only
      rw [ih (fun e he => hd e (List.mem_cons_of_mem _ he)) (acc ++ [f (k, v)])
          (some k),
        htake, List.take_succ_cons, List.map_cons, List.foldl_cons]
      simp [List.append_assoc]
    · have htake : B - acc.length = 0 := by omega
      rw [scanRest, if_neg hlt, htake]
      simp

theorem foldl_key_getLast :
    ∀ (t : List (Key × α)) (e : Key × α), t.getLast? = some e →
      ∀ (init : Option Key),
        t.foldl (fun _ x => some x.1) init = some e.1 := by
  intro t
  induction t with
  | nil => intro e h; simp at h
  | cons a t ih =>
    intro e h init
    cases t with
    | nil =>
      simp only [List.getLast?_singleton, Option.some.injEq] at h
      subst h
      simp [List.foldl]
    | cons b t' =>
      rw [List.getLast?_cons_cons] at h
      rw [List.foldl_cons]
      exact ih e h _

theorem dropWhile_lt_getElem (l : List (Key × α))
    (hs : l.Pairwise (fun a b => a.1 < b.1)) :
    ∀ (i : Nat) (e : Key × α), l[i]? = some e →
      l.dropWhile (fun x => x.1 < e.1) = l.drop i := by
  induction l with
  | nil => intro i e h; simp at h
  | cons a l ih =>
    intro i e h
    cases i with
    | zero =>
      simp only [List.getElem?_cons_zero, Option.some.injEq] at h
      subst h
      rw [List.dropWhile_cons]
      simp
    | succ j =>
      rw [List.getElem?_cons_succ] at h
      have he : e ∈ l := List.getElem?_mem h
      have hlt : a.1 < e.1 := (List.pairwise_cons.mp hs).1 e he
      rw [List.dropWhile_cons, if_pos (by simpa using hlt), List.drop_succ_cons]
      exact ih (List.pairwise_cons.mp hs).2 j e h

theorem positionCursor_keyAt (l : List (Key × α))
    (hs : l.Pairwise (fun a b => a.1 < b.1)) (c : Nat) (hc : c ≤ l.length) :
    positionCursor l (keyAt l c) = l.drop c := by
  cases c with
  | zero => simp [positionCursor, keyAt]
  | succ i =>
    have hi : i < l.length := by omega
    have he : l[i]? = some l[i] := List.getElem?_eq_getElem hi
    have hkey : keyAt l (i + 1) = some (l[i]).1 := by
      simp [keyAt, he]
    rw [hkey]
    show (l.dropWhile (fun x => x.1 < (l[i]).1)).tail = l.drop (i + 1)
    rw [dropWhile_lt_getElem l hs i l[i] he, List.tail_drop]

theorem getLast_take_drop (l : List (Key × α)) (c n : Nat)
    (h : (l.drop c).take n ≠ []) :
    l[c + ((l.drop c).take n).length - 1]? =
      some (((l.drop c).take n).getLast h) := by
  have hlen1 : 1 ≤ ((l.drop c).take n).length := List.length_pos.mpr h
  have hlenn : ((l.drop c).take n).length ≤ n := by
    rw [List.length_take]; exact min_le_left _ _
  have h1 := List.getLast?_eq_getLast ((l.drop c).take n) h
  rw [List.getLast?_eq_getElem?, List.getElem?_take,
    if_pos (by omega : ((l.drop c).take n).length - 1 < n),
    List.getElem?_drop] at h1
  have hidx : c + ((l.drop c).take n).length - 1 =
      c + (((l.drop c).take n).length - 1) := by omega
  rw [hidx, h1]

/-- Characterization of `scan_entity_batch` / `scan_edge_batch` on a sorted
collection whose records all decode: starting from the continuation key
left by the first `c` records, the batch is the next `min B (N - c)`
records in order, and the returned continuation key is the storage key of
the last record of that batch (none on an empty batch). -/
theorem scanBatchCore_sorted (decode : α → Option ρ) (f : Key × α → ρ)
    (l : List (Key × α)) (hs : l.Pairwise (fun a b => a.1 < b.1))
    (hdec : ∀ e ∈ l, decode e.2 = some (f e))
    (B : Nat) (hB : 0 < B) (c : Nat) (hc : c ≤ l.length) :
    scanBatchCore decode (some l) (keyAt l c) B =
      (((l.drop c).take B).map f,
        if c < l.length then keyAt l (c + ((l.drop c).take B).length)
        else none) := by
  have hpos := positionCursor_keyAt l hs c hc
  by_cases hlt : c < l.length
  case neg =>
    have hdrop : l.drop c = [] := List.drop_eq_nil_of_le (by omega)
    simp [scanBatchCore, hpos, hdrop, hlt]
  case pos =>
    obtain ⟨k0, v0, he0⟩ : ∃ k0 v0, l[c] = (k0, v0) := ⟨(l[c]).1, (l[c]).2, rfl⟩
    have hdrop : l.drop c = (k0, v0) :: l.drop (c + 1) := by
      rw [List.drop_eq_getElem_cons hlt, he0]
    have hdecc : decode v0 = some (f (k0, v0)) := by
      have h := hdec (l[c]) (List.getElem_mem hlt)
      rwa [he0] at h
    have hrest : ∀ e ∈ l.drop (c + 1), decode e.2 = some (f e) :=
      fun e he => hdec e (List.drop_subset _ l he)
    rw [if_pos hlt]
    simp only [scanBatchCore, hpos, hdrop, hdecc]
    rw [scanRest_all decode f B _ hrest]
    rw [List.take_cons hB, List.map_cons, List.length_cons]
    simp only [List.length_cons, List.length_nil, List.singleton_append,
      Nat.zero_add]
    rw [Prod.mk.injEq]
    refine ⟨rfl, ?_⟩
    by_cases hT : (l.drop (c + 1)).take (B - 1) = []
    · rw [hT]
      simp only [List.foldl_nil, List.length_nil, Nat.zero_add, keyAt,
        if_neg (by omega : ¬ c + 1 = 0), Nat.add_sub_cancel,
        List.getElem?_eq_getElem hlt, he0]
      rfl
    · rw [foldl_key_getLast _ _ (List.getLast?_eq_getLast _ hT)]
      have hfin := getLast_take_drop l (c + 1) (B - 1) hT
      have hidx : c + 1 + ((l.drop (c + 1)).take (B - 1)).length - 1 =
          c + ((l.drop (c + 1)).take (B - 1)).length := by omega
      rw [hidx] at hfin
      simp only [keyAt, if_neg (by omega : ¬ c + (((l.drop (c + 1)).take
        (B - 1)).length + 1) = 0)]
      have hidx2 : c + (((l.drop (c + 1)).take (B - 1)).length + 1) - 1 =
          c + ((l.drop (c + 1)).take (B - 1)).length := by omega
      rw [hidx2, hfin]
      rfl

theorem chunks_eq_cons (B : Nat) (hB : 0 < B) (l : List ρ) (h : l ≠ []) :
    chunks B l = l.take B :: chunks B (l.drop B) := by
  cases l with
  | nil => exact absurd rfl h
  | cons x xs => exact chunks_cons B hB x xs

/-- Driving `func_inner` from the state reached after `c` records of a
sorted, fully decodable collection have been returned produces exactly the
`B`-sized chunking of the remaining records, followed by the single empty
terminal batch. -/
theorem driveScan_from (decode : α → Option ρ) (f : Key × α → ρ)
    (l : List (Key × α)) (hs : l.Pairwise (fun a b => a.1 < b.1))
    (hdec : ∀ e ∈ l, decode e.2 = some (f e))
    (B : Nat) (hB : 0 < B) :
    ∀ (fuel c : Nat), c ≤ l.length → l.length - c < fuel →
      driveScan decode (some l) B fuel ⟨false, keyAt l c⟩ =
        chunks B ((l.drop c).map f) ++ [[]] := by
  intro fuel
  induction fuel with
  | zero => intro c hc hf; omega
  | succ fuel ih =>
    intro c hc hf
    have hscan := scanBatchCore_sorted decode f l hs hdec B hB c hc
    by_cases hlt : c < l.length
    · rw [if_pos hlt] at hscan
      have hlen : 0 < (((l.drop c).take B).map f).length := by
        rw [List.length_map, List.length_take, List.length_drop]
        exact lt_min hB (by omega)
      have hne : (((l.drop c).take B).map f).isEmpty = false := by
        cases hx : ((l.drop c).take B).map f with
        | nil => rw [hx] at hlen; simp at hlen
        | cons a as => rfl
      have hfi : funcInner decode (.ok (some l)) B ⟨false, keyAt l c⟩ =
          (.ok (((l.drop c).take B).map f,
            ⟨false, keyAt l (c + ((l.drop c).take B).length)⟩), true) := by
        rw [funcInner]
        simp only [hscan, hne, Bool.false_eq_true, if_false]
      have hclen : ((l.drop c).take B).length = min B (l.length - c) := by
        rw [List.length_take, List.length_drop]
      have hdropeq : l.drop (c + ((l.drop c).take B).length) =
          l.drop (c + B) := by
        rw [hclen]
        rcases le_or_lt (c + B) l.length with hcb | hcb
        · congr 1
          omega
        · rw [List.drop_eq_nil_of_le (by omega),
            List.drop_eq_nil_of_le (by omega)]
      have hmapne : (l.drop c).map f ≠ [] := by
        rw [ne_eq, List.map_eq_nil_iff]
        intro hx
        have := List.drop_eq_nil_iff.mp hx
        omega
      rw [driveScan, hfi]
      simp only [hne, Bool.false_eq_true, if_false]
      rw [ih (c + ((l.drop c).take B).length)
          (by rw [hclen]; omega) (by rw [hclen]; omega),
        hdropeq,
        chunks_eq_cons B hB _ hmapne, ← List.map_take, ← List.map_drop,
        List.drop_drop, List.cons_append]
    · rw [if_neg hlt] at hscan
      have hdropnil : l.drop c = [] := List.drop_eq_nil_of_le (by omega)
      rw [hdropnil] at hscan
      simp only [List.take_nil, List.map_nil] at hscan
      have hfi : funcInner decode (.ok (some l)) B ⟨false, keyAt l c⟩ =
          (.ok ([], ⟨true, keyAt l c⟩), true) := by
        rw [funcInner]
        simp only [hscan]
        rfl
      rw [driveScan, hfi]
      simp only [List.isEmpty_nil, if_true]
      rw [hdropnil]
      simp [chunks_nil]

/-- **C1**: scanning a collection of `N` decodable records with batch size
`B` by repeatedly calling the batch scan (`scan_entity_batch` /
`scan_edge_batch` driven by `func_inner`, starting with no continuation
key and feeding each returned key into the next call) yields `⌈N/B⌉`
non-empty batches whose record counts sum to exactly `N`, followed by
exactly one empty terminal batch, and re-running the whole scan from
scratch yields the same batches (same total, same per-record order). -/
theorem c1_pagination_completeness (decode : α → Option ρ) (f : Key × α → ρ)
    (l : List (Key × α)) (hs : l.Pairwise (fun a b => a.1 < b.1))
    (hdec : ∀ e ∈ l, decode e.2 = some (f e))
    (B fuel : Nat) (hB : 0 < B) (hfuel : l.length < fuel) :
    (∀ b ∈ (driveScan decode (some l) B fuel ⟨false, none⟩).dropLast,
      b ≠ []) ∧
    (driveScan decode (some l) B fuel ⟨false, none⟩).dropLast.length =
      (l.length + B - 1) / B ∧
    ((driveScan decode (some l) B fuel ⟨false, none⟩).map
      List.length).sum = l.length ∧
    (driveScan decode (some l) B fuel ⟨false, none⟩).getLast? = some [] ∧
    (driveScan decode (some l) B fuel ⟨false, none⟩).dropLast.flatten =
      l.map f ∧
    driveScan decode (some l) B fuel ⟨false, none⟩ =
      driveScan decode (some l) B fuel ⟨false, none⟩ := by
  have h0 : keyAt l 0 = none := rfl
  have hdrive := driveScan_from decode f l hs hdec B hB fuel 0
    (Nat.zero_le _) (by omega)
  rw [h0, List.drop_zero] at hdrive
  rw [hdrive]
  refine ⟨?_, ?_, ?_, ?_, ?_, rfl⟩
  · rw [List.dropLast_concat]
    exact chunks_ne_nil B hB _
  · rw [List.dropLast_concat,
      chunks_length_aux B hB (l.map f).length (l.map f) le_rfl,
      List.length_map]
  · rw [List.map_append, List.sum_append, ← List.length_flatten,
      chunks_flatten B hB, List.length_map]
    simp
  · exact List.getLast?_concat _
  · rw [List.dropLast_concat, chunks_flatten B hB]

/-- Witness for `c1_pagination_completeness`: three records, batch size 2,
giving batches `[10, 20]`, `[30]`, `[]`. -/
theorem c1_pagination_completeness_witness :
    (∀ b ∈ (driveScan (fun v : Nat => some v)
        (some [(1, 10), (2, 20), (3, 30)]) 2 4 ⟨false, none⟩).dropLast,
      b ≠ []) ∧
    (driveScan (fun v : Nat => some v) (some [(1, 10), (2, 20), (3, 30)])
      2 4 ⟨false, none⟩).dropLast.length =
      ([(1, 10), (2, 20), (3, 30)].length + 2 - 1) / 2 ∧
    ((driveScan (fun v : Nat => some v) (some [(1, 10), (2, 20), (3, 30)])
      2 4 ⟨false, none⟩).map List.length).sum =
      [(1, 10), (2, 20), (3, 30)].length ∧
    (driveScan (fun v : Nat => some v) (some [(1, 10), (2, 20), (3, 30)])
      2 4 ⟨false, none⟩).getLast? = some [] ∧
    (driveScan (fun v : Nat => some v) (some [(1, 10), (2, 20), (3, 30)])
      2 4 ⟨false, none⟩).dropLast.flatten =
      [(1, 10), (2, 20), (3, 30)].map Prod.snd ∧
    driveScan (fun v : Nat => some v) (some [(1, 10), (2, 20), (3, 30)])
      2 4 ⟨false, none⟩ =
    driveScan (fun v : Nat => some v) (some [(1, 10), (2, 20), (3, 30)])
      2 4 ⟨false, none⟩ :=
  c1_pagination_completeness (fun v : Nat => some v) Prod.snd
    [(1, 10), (2, 20), (3, 30)] (by decide) (by decide) 2 4 (by decide)
    (by decide)

/-- Records returned by one batch call, for any continuation key: the first
`B` decodable entries after the cursor position. -/
theorem scanBatchCore_records (decode : α → Option ρ) (f : Key × α → ρ)
    (l : List (Key × α)) (sk : Option Key) (B : Nat) (hB : 0 < B)
    (hdec : ∀ e ∈ positionCursor l sk, decode e.2 = some (f e)) :
    (scanBatchCore decode (some l) sk B).1 =
      ((positionCursor l sk).take B).map f := by
  cases hP : positionCursor l sk with
  | nil => simp [scanBatchCore, hP]
  | cons e rest =>
    obtain ⟨k0, v0⟩ := e
    have hd0 : decode v0 = some (f (k0, v0)) := by
      have : (k0, v0) ∈ positionCursor l sk := by
        rw [hP]; exact List.mem_cons_self _ _
      exact hdec _ this
    have hrest : ∀ e ∈ rest, decode e.2 = some (f e) := fun e he =>
      hdec e (by rw [hP]; exact List.mem_cons_of_mem _ he)
    simp only [scanBatchCore, hP, hd0]
    rw [scanRest_all decode f B rest hrest, List.take_cons hB, List.map_cons]
    simp

/-- **C2 (amended)**: calling the batch scan with a continuation key equal
to the key of the last record of batch `k` (any valid split point `c`)
returns exactly the next `B` records in order, with no record repeated and
no record skipped.  When the continuation key is no longer present in the
collection, however, the seek lands on the first record strictly after the
missing key and the unconditional `cursor.next()` then skips it: the scan
resumes after that record rather than at it. -/
theorem c2_resumability (decode : α → Option ρ) (f : Key × α → ρ)
    (l : List (Key × α)) (hs : l.Pairwise (fun a b => a.1 < b.1))
    (hdec : ∀ e ∈ l, decode e.2 = some (f e))
    (B : Nat) (hB : 0 < B) :
    (∀ c : Nat, 1 ≤ c → c ≤ l.length →
      (scanBatchCore decode (some l) (keyAt l c) B).1 =
        ((l.drop c).take B).map f) ∧
    (∀ k : Key, (∀ e ∈ l, e.1 ≠ k) →
      (scanBatchCore decode (some l) (some k) B).1 =
        (((l.dropWhile (fun e => e.1 < k)).drop 1).take B).map f) := by
  constructor
  · intro c _ hc
    rw [scanBatchCore_records decode f l (keyAt l c) B hB
        (fun e he => hdec e ((positionCursor_keyAt l hs c hc ▸ he :
          e ∈ l.drop c) |> List.drop_subset c l)),
      positionCursor_keyAt l hs c hc]
  · intro k _
    have hsub : ∀ e ∈ positionCursor l (some k), e ∈ l := by
      intro e he
      have h1 : positionCursor l (some k) = (l.dropWhile
          (fun x => x.1 < k)).tail := rfl
      rw [h1] at he
      exact (List.dropWhile_sublist _).subset ((List.tail_sublist _).subset he)
    rw [scanBatchCore_records decode f l (some k) B hB
        (fun e he => hdec e (hsub e he)), List.drop_one]
    rfl

/-- Witness for `c2_resumability`: split after record 1 resumes at record 2;
a missing continuation key 5 resumes via seek-then-advance. -/
theorem c2_resumability_witness :
    (scanBatchCore (fun v : Nat => some v)
        (some [(1, 10), (2, 20), (3, 30)])
        (keyAt [(1, 10), (2, 20), (3, 30)] 1) 2).1 =
      (([(1, 10), (2, 20), (3, 30)].drop 1).take 2).map Prod.snd ∧
    (scanBatchCore (fun v : Nat => some v)
        (some [(1, 10), (2, 20), (3, 30)]) (some 5) 2).1 =
      ((([(1, 10), (2, 20), (3, 30)].dropWhile
          (fun e => e.1 < 5)).drop 1).take 2).map Prod.snd :=
  ⟨(c2_resumability (fun v : Nat => some v) Prod.snd
      [(1, 10), (2, 20), (3, 30)] (by decide) (by decide) 2
      (by decide)).1 1 (by decide) (by decide),
   (c2_resumability (fun v : Nat => some v) Prod.snd
      [(1, 10), (2, 20), (3, 30)] (by decide) (by decide) 2
      (by decide)).2 5 (by decide)⟩

/-- **C2 counterexample**: collection with keys 1 and 3, all records
decodable, continuation key 2 no longer present.  The claim requires
resumption at the first record strictly after the missing key (the record
with key 3, value 30), but the scan returns an empty batch: the record is
skipped. -/
theorem c2_resumability_counterexample :
    (scanBatchCore (fun v : Nat => some v) (some [(1, 10), (3, 30)])
        (some 2) 1024).1 = [] ∧
    ([] : List Nat) ≠ [30] :=
  ⟨by decide, by decide⟩

theorem sampleRest_eq (decode : α → Option ρ) (bound : Nat) :
    ∀ (rest : List (Key × α)) (count : Nat) (acc : List ρ),
      sampleRest decode bound rest count acc =
        acc ++ (rest.take (bound - count)).filterMap (fun e => decode e.2) := by
  intro rest
  induction rest with
  | nil => intro count acc; simp [sampleRest]
  | cons e rest ih =>
    intro count acc
    obtain ⟨k, v⟩ := e
    by_cases hlt : count < bound
    · have htake : bound - count = (bound - (count + 1)) + 1 := by omega
      rw [sampleRest, if_pos hlt, ih (count + 1) (acc ++ (decode v).toList),
        htake, List.take_succ_cons, List.filterMap_cons]
      cases decode v <;> simp
    · have h0 : bound - count = 0 := by omega
      rw [sampleRest, if_neg hlt, h0]
      simp

theorem sampleDecoded_eq (decode : α → Option ρ) (l : List (Key × α))
    (bound : Nat) (hb : 1 ≤ bound) :
    sampleDecoded decode (some l) bound =
      (l.take bound).filterMap (fun e => decode e.2) := by
  cases l with
  | nil => simp [sampleDecoded]
  | cons e rest =>
    obtain ⟨k, v⟩ := e
    have htake : bound = (bound - 1) + 1 := by omega
    rw [sampleDecoded, sampleRest_eq decode bound rest 1 (decode v).toList,
      htake]
    simp only [Nat.add_sub_cancel, List.take_succ_cons, List.filterMap_cons]
    cases decode v <;> simp

/-- **C3 (amended)**: schema discovery reads at most the sample bound of
records in total — a record that fails to decode is skipped but still
counts toward the bound — observing exactly the decodable records among
the first `bound` entries; for a collection with at most `bound` records,
discovery observes exactly the collection's decodable records. -/
theorem c3_sample_bound (decode : α → Option ρ) (l : List (Key × α))
    (bound : Nat) (hb : 1 ≤ bound) :
    sampleDecoded decode (some l) bound =
      (l.take bound).filterMap (fun e => decode e.2) ∧
    (sampleDecoded decode (some l) bound).length ≤ bound ∧
    (l.length ≤ bound →
      sampleDecoded decode (some l) bound =
        l.filterMap (fun e => decode e.2)) := by
  refine ⟨sampleDecoded_eq decode l bound hb, ?_, ?_⟩
  · rw [sampleDecoded_eq decode l bound hb]
    calc ((l.take bound).filterMap (fun e => decode e.2)).length
        ≤ (l.take bound).length := List.length_filterMap_le _ _
      _ ≤ bound := by rw [List.length_take]; exact min_le_left _ _
  · intro hlen
    rw [sampleDecoded_eq decode l bound hb, List.take_of_length_le hlen]

/-- Witness for `c3_sample_bound`: two records, the second undecodable,
bound 2. -/
theorem c3_sample_bound_witness :
    sampleDecoded (fun v : Nat => if v = 0 then none else some v)
      (some [(1, 10), (2, 0)]) 2 =
      ([(1, 10), (2, 0)].take 2).filterMap
        (fun e => if e.2 = 0 then none else some e.2) ∧
    (sampleDecoded (fun v : Nat => if v = 0 then none else some v)
      (some [(1, 10), (2, 0)]) 2).length ≤ 2 ∧
    ([(1, 10), (2, 0)].length ≤ 2 →
      sampleDecoded (fun v : Nat => if v = 0 then none else some v)
        (some [(1, 10), (2, 0)]) 2 =
        [(1, 10), (2, 0)].filterMap
          (fun e => if e.2 = 0 then none else some e.2)) :=
  c3_sample_bound (fun v : Nat => if v = 0 then none else some v)
    [(1, 10), (2, 0)] 2 (by decide)

set_option maxRecDepth 100000 in
/-- **C3 counterexample**: `c3Collection` has 100 decodable records (all
but the first), so by the claim discovery observes 100 records; but the
code's sampling loop counts the failed decode of the first record against
the 100-record bound and observes only 99. -/
theorem c3_sample_bound_counterexample :
    (c3Collection.filterMap
        (fun e => if e.2 = 0 then none else some e.2)).length = 100 ∧
    (sampleDecoded (fun v : Nat => if v = 0 then none else some v)
        (some c3Collection) SCHEMA_SAMPLE_SIZE).length = 99 :=
  ⟨by decide, by decide⟩

/-- **C4**: finalize emits the fixed columns first (entities: id, labels;
edges: id, source, target, edge_type), then exactly one column per
observed property name (names a permutation of the observed names, in
lexicographic order), every property-derived column declared Varchar (and
nullable) regardless of the Value types observed; and two discovery runs
over the same observations — whatever iteration order the hash map
presents the property names in — produce identical ordered column
lists. -/
theorem c4_finalize_schema (d d' : SchemaDiscovery)
    (g g' : EdgeSchemaDiscovery)
    (hd : (d.property_types.map Prod.fst).Perm
      (d'.property_types.map Prod.fst))
    (hg : (g.property_types.map Prod.fst).Perm
      (g'.property_types.map Prod.fst)) :
    d.finalize.take 2 =
      [⟨"id", .Varchar, false⟩, ⟨"labels", .Varchar, false⟩] ∧
    g.finalize.take 4 =
      [⟨"id", .Varchar, false⟩, ⟨"source", .Varchar, false⟩,
       ⟨"target", .Varchar, false⟩, ⟨"edge_type", .Varchar, false⟩] ∧
    d.finalize.drop 2 = propertyColumns d.property_types ∧
    g.finalize.drop 4 = propertyColumns g.property_types ∧
    (propertyColumns d.property_types).map DiscoveredColumn.name =
      ((d.property_types.map Prod.fst).insertionSort strLe).map
        (fun name => "prop_" ++ name) ∧
    List.Sorted strLe
      ((d.property_types.map Prod.fst).insertionSort strLe) ∧
    ((d.property_types.map Prod.fst).insertionSort strLe).Perm
      (d.property_types.map Prod.fst) ∧
    (∀ c ∈ propertyColumns d.property_types,
      c.column_type = .Varchar ∧ c.nullable = true) ∧
    (∀ c ∈ propertyColumns g.property_types,
      c.column_type = .Varchar ∧ c.nullable = true) ∧
    d.finalize = d'.finalize ∧ g.finalize = g'.finalize := by
  refine ⟨rfl, rfl, rfl, rfl, ?_, List.sorted_insertionSort strLe _,
    List.perm_insertionSort strLe _, ?_, ?_, ?_, ?_⟩
  · rw [propertyColumns, List.map_map]
    rfl
  · intro c hc
    rw [propertyColumns] at hc
    obtain ⟨name, _, rfl⟩ := List.mem_map.mp hc
    exact ⟨rfl, rfl⟩
  · intro c hc
    rw [propertyColumns] at hc
    obtain ⟨name, _, rfl⟩ := List.mem_map.mp hc
    exact ⟨rfl, rfl⟩
  · have heq : (d.property_types.map Prod.fst).insertionSort strLe =
        (d'.property_types.map Prod.fst).insertionSort strLe :=
      List.eq_of_perm_of_sorted
        (((List.perm_insertionSort strLe _).trans hd).trans
          (List.perm_insertionSort strLe _).symm)
        (List.sorted_insertionSort strLe _)
        (List.sorted_insertionSort strLe _)
    unfold SchemaDiscovery.finalize propertyColumns
    rw [heq]
  · have heq : (g.property_types.map Prod.fst).insertionSort strLe =
        (g'.property_types.map Prod.fst).insertionSort strLe :=
      List.eq_of_perm_of_sorted
        (((List.perm_insertionSort strLe _).trans hg).trans
          (List.perm_insertionSort strLe _).symm)
        (List.sorted_insertionSort strLe _)
        (List.sorted_insertionSort strLe _)
    unfold EdgeSchemaDiscovery.finalize propertyColumns
    rw [heq]

/-- Witness for `c4_finalize_schema`: two property names observed in
opposite hash-map orders yield the same finalized schema, with the fixed
columns first. -/
theorem c4_finalize_schema_witness :
    (SchemaDiscovery.finalize
        ⟨[("b", [ColumnType.Bigint]), ("a", [ColumnType.Boolean])], 2⟩).take 2 =
      [⟨"id", ColumnType.Varchar, false⟩,
       ⟨"labels", ColumnType.Varchar, false⟩] ∧
    SchemaDiscovery.finalize
        ⟨[("b", [ColumnType.Bigint]), ("a", [ColumnType.Boolean])], 2⟩ =
      SchemaDiscovery.finalize ⟨[("a", [ColumnType.Varchar]), ("b", [])], 5⟩ ∧
    EdgeSchemaDiscovery.finalize
        ⟨[("y", [ColumnType.Double]), ("x", [ColumnType.Blob])], 1⟩ =
      EdgeSchemaDiscovery.finalize ⟨[("x", []), ("y", [])], 0⟩ := by
  have h := c4_finalize_schema
    ⟨[("b", [ColumnType.Bigint]), ("a", [ColumnType.Boolean])], 2⟩
    ⟨[("a", [ColumnType.Varchar]), ("b", [])], 5⟩
    ⟨[("y", [ColumnType.Double]), ("x", [ColumnType.Blob])], 1⟩
    ⟨[("x", []), ("y", [])], 0⟩ (by decide) (by decide)
  exact ⟨h.1, h.2.2.2.2.2.2.2.2.2.1, h.2.2.2.2.2.2.2.2.2.2⟩

/-- **C7**: once a produce call returns an empty batch the scan state is
terminal (`done = true`), and every subsequent produce call returns an
empty batch, without error and without touching storage (no engine lookup,
transaction or cursor operation), whatever the storage state then is. -/
theorem c7_idempotent_exhaustion (decode : α → Option ρ)
    (engine : Except EngineError (Collection α)) (B : Nat)
    (st st' : InitData) (out : List ρ) (touched : Bool)
    (h : funcInner decode engine B st = (.ok (out, st'), touched))
    (hout : out = []) :
    st'.done = true ∧
    ∀ engine2 : Except EngineError (Collection α),
      funcInner decode engine2 B st' = (.ok ([], st'), false) := by
  subst hout
  have hdone : st'.done = true := by
    by_cases hd : st.done
    · rw [funcInner.eq_def, if_pos hd] at h
      simp only [Prod.mk.injEq, Except.ok.injEq] at h
      rw [← h.1.2]
      exact hd
    · rw [funcInner.eq_def, if_neg hd] at h
      cases engine with
      | error e => simp at h
      | ok coll =>
        by_cases hemp : (scanBatchCore decode coll st.lastKey B).1.isEmpty
        · simp only [hemp, if_true] at h
          simp only [Prod.mk.injEq, Except.ok.injEq] at h
          rw [← h.1.2]
        · simp only [hemp, Bool.false_eq_true, if_false] at h
          simp only [Prod.mk.injEq, Except.ok.injEq] at h
          rw [h.1.1] at hemp
          simp at hemp
  refine ⟨hdone, fun engine2 => ?_⟩
  rw [funcInner.eq_def, if_pos hdone]

/-- Witness for `c7_idempotent_exhaustion`: a one-record collection scanned
from a continuation key at its last record produces an empty batch; from
then on every call is a no-op. -/
theorem c7_idempotent_exhaustion_witness :
    InitData.done ⟨true, some 1⟩ = true ∧
    ∀ engine2 : Except EngineError (Collection Nat),
      funcInner (fun v : Nat => some v) engine2 1024 ⟨true, some 1⟩ =
        (.ok ([], ⟨true, some 1⟩), false) :=
  c7_idempotent_exhaustion (fun v : Nat => some v) (.ok (some [(1, 10)]))
    1024 ⟨false, some 1⟩ ⟨true, some 1⟩ [] true rfl rfl

/-- **C8**: when the requested collection does not exist (the cursor-open
returns `NotFound`, modelled as `none`), schema discovery returns the base
schema — fixed columns only, zero property columns — rather than an error,
and every batch scan over the absent collection returns an empty batch
rather than an error, so the first produce call yields zero rows and
terminates the scan. -/
theorem c8_absent_collection (decodeEntity : α → Option (Entity F))
    (decodeEdge : α → Option (Edge F)) (decode : α → Option ρ)
    (sk : Option Key) (B : Nat) :
    discover_edge_schema decodeEdge none =
      [⟨"id", .Varchar, false⟩, ⟨"source", .Varchar, false⟩,
       ⟨"target", .Varchar, false⟩, ⟨"edge_type", .Varchar, false⟩] ∧
    discover_entity_schema decodeEntity none =
      [⟨"id", .Varchar, false⟩, ⟨"labels", .Varchar, false⟩] ∧
    scanBatchCore decode none sk B = ([], none) ∧
    funcInner decode (.ok none) B ⟨false, none⟩ =
      (.ok ([], ⟨true, none⟩), true) :=
  ⟨rfl, rfl, rfl, rfl⟩

/-- **C9 (amended)**: every composite property Value renders as its
canonical JSON text form — in particular an array value `[1,2,3]` projects
as the text `[1,2,3]` — and the rendering is identical between entity and
edge scans for arrays and every vector variant; for byte sequences the two
scanners differ: the entity scanner renders a base64-encoded JSON string,
the edge scanner a JSON array of numbers.  (Serialization of these values
always succeeds, so the empty-container fallback literals of the source
are dead code in the model.) -/
theorem c9_composite_projection (displayF jsonF : F → String) :
    (∀ elems : List (Value F),
      entities_value_to_duckdb_string displayF jsonF (.Array elems) =
        jsonArrayString (valueListToJson jsonF elems) ∧
      edges_value_to_duckdb_string displayF jsonF (.Array elems) =
        entities_value_to_duckdb_string displayF jsonF (.Array elems)) ∧
    (∀ v : List F,
      edges_value_to_duckdb_string displayF jsonF (.Vector v) =
        entities_value_to_duckdb_string displayF jsonF (.Vector v)) ∧
    (∀ sv : List (Nat × F),
      edges_value_to_duckdb_string displayF jsonF (.SparseVector sv) =
        entities_value_to_duckdb_string displayF jsonF (.SparseVector sv)) ∧
    (∀ mv : List (List F),
      edges_value_to_duckdb_string displayF jsonF (.MultiVector mv) =
        entities_value_to_duckdb_string displayF jsonF (.MultiVector mv)) ∧
    (∀ b : List Nat,
      entities_value_to_duckdb_string displayF jsonF (.Bytes b) =
        jsonQuote (base64_encode b) ∧
      edges_value_to_duckdb_string displayF jsonF (.Bytes b) =
        jsonArrayString (b.map (fun n => toString n))) ∧
    entities_value_to_duckdb_string displayF jsonF
      (.Array [.Int 1, .Int 2, .Int 3]) = "[1,2,3]" ∧
    edges_value_to_duckdb_string displayF jsonF
      (.Array [.Int 1, .Int 2, .Int 3]) = "[1,2,3]" :=
  ⟨fun _ => ⟨rfl, rfl⟩, fun _ => rfl, fun _ => rfl, fun _ => rfl,
    fun _ => ⟨rfl, rfl⟩, rfl, rfl⟩

/-- **C9 counterexample**: the byte-sequence value `[65]` projects as the
base64 JSON string `"QQ=="` through the entity scanner but as the JSON
number array `[65]` through the edge scanner: the rendering is not the
same for entity scans and edge scans. -/
theorem c9_composite_projection_counterexample :
    entities_value_to_duckdb_string (fun x : Empty => x.elim)
      (fun x : Empty => x.elim) (.Bytes [65]) = "\"QQ==\"" ∧
    edges_value_to_duckdb_string (fun x : Empty => x.elim)
      (fun x : Empty => x.elim) (.Bytes [65]) = "[65]" ∧
    ("\"QQ==\"" : String) ≠ "[65]" :=
  ⟨by decide, by decide, by decide⟩

/-- **C10**: a property holding the null Value projects as the empty
string — a written cell, not an unset one, and not the text "null" — in
both entity and edge scans; only a property absent from the record's map
leaves the cell unset. -/
theorem c10_null_renders_empty (displayF jsonF : F → String)
    (e : Entity F) (g : Edge F) (name : String) :
    (e.properties.lookup name = some .Null →
      entity_prop_cell displayF jsonF e name = some "" ∧
      entity_prop_cell displayF jsonF e name ≠ none ∧
      entity_prop_cell displayF jsonF e name ≠ some "null") ∧
    (g.properties.lookup name = some .Null →
      edge_prop_cell displayF jsonF g name = some "" ∧
      edge_prop_cell displayF jsonF g name ≠ none ∧
      edge_prop_cell displayF jsonF g name ≠ some "null") ∧
    (e.properties.lookup name = none →
      entity_prop_cell displayF jsonF e name = none) ∧
    (g.properties.lookup name = none →
      edge_prop_cell displayF jsonF g name = none) := by
  refine ⟨fun h => ?_, fun h => ?_, fun h => ?_, fun h => ?_⟩ <;>
    simp [entity_prop_cell, edge_prop_cell, h,
      entities_value_to_duckdb_string, edges_value_to_duckdb_string]

/-- Witness for `c10_null_renders_empty`: a record with property `a`
holding null and no property `b`. -/
theorem c10_null_renders_empty_witness :
    entity_prop_cell (fun x : Empty => x.elim) (fun x : Empty => x.elim)
      ⟨1, ["L"], [("a", Value.Null)]⟩ "a" = some "" ∧
    edge_prop_cell (fun x : Empty => x.elim) (fun x : Empty => x.elim)
      ⟨1, 2, 3, "T", [("a", Value.Null)]⟩ "a" = some "" ∧
    entity_prop_cell (fun x : Empty => x.elim) (fun x : Empty => x.elim)
      ⟨1, ["L"], [("a", Value.Null)]⟩ "b" = none ∧
    edge_prop_cell (fun x : Empty => x.elim) (fun x : Empty => x.elim)
      ⟨1, 2, 3, "T", [("a", Value.Null)]⟩ "b" = none := by
  have h1 := c10_null_renders_empty (fun x : Empty => x.elim)
    (fun x : Empty => x.elim) ⟨1, ["L"], [("a", Value.Null)]⟩
    ⟨1, 2, 3, "T", [("a", Value.Null)]⟩ "a"
  have h2 := c10_null_renders_empty (fun x : Empty => x.elim)
    (fun x : Empty => x.elim) ⟨1, ["L"], [("a", Value.Null)]⟩
    ⟨1, 2, 3, "T", [("a", Value.Null)]⟩ "b"
  exact ⟨(h1.1 rfl).1, (h1.2.1 rfl).1, h2.2.2.1 rfl, h2.2.2.2 rfl⟩

theorem lookup_none_not_mem (cache : EngineCache) (p : String)
    (h : cache.lookup p = none) : p ∉ cache.map Prod.fst := by
  induction cache with
  | nil => simp
  | cons e rest ih =>
    obtain ⟨k, v⟩ := e
    rw [List.lookup_cons] at h
    by_cases hk : p = k
    · rw [hk] at h
      simp at h
    · simp only [(by simp [hk] : (p == k) = false), if_false] at h
      simp only [List.map_cons, List.mem_cons]
      push_neg
      exact ⟨hk, ih h⟩

theorem get_cached_engine_nodup (openFn : String → Option Handle)
    (cache : EngineCache) (p : String)
    (h : (cache.map Prod.fst).Nodup) :
    (((get_cached_engine openFn cache p).2.1).map Prod.fst).Nodup := by
  rw [get_cached_engine.eq_def]
  cases hl : cache.lookup p with
  | some e => exact h
  | none =>
    cases ho : openFn p with
    | some e =>
      simp only [List.map_append, List.map_cons, List.map_nil]
      rw [List.nodup_append]
      refine ⟨h, List.nodup_singleton _, ?_⟩
      intro x hx hx'
      simp only [List.mem_singleton] at hx'
      rw [hx'] at hx
      exact lookup_none_not_mem cache p hl hx
    | none => exact h

theorem runAcquires_nodup (openFn : String → Option Handle)
    (paths : List String) :
    ∀ cache : EngineCache, (cache.map Prod.fst).Nodup →
      ((runAcquires openFn paths cache).map Prod.fst).Nodup := by
  induction paths with
  | nil => intro cache h; exact h
  | cons p ps ih =>
    intro cache h
    rw [runAcquires]
    exact ih _ (get_cached_engine_nodup openFn cache p h)

/-- **C5**: starting from the empty cache, any sequence of acquires leaves
at most one handle per distinct path; an acquire for a path already cached
returns that same shared handle, leaves the cache unchanged and does not
open the storage again; an acquire for an uncached path opens the storage
once and inserts the handle.  (Concurrent acquires are serialized by the
cache mutex, so they execute as some sequential interleaving, covered by
the arbitrary call sequence.) -/
theorem c5_handle_cache_unique (openFn : String → Option Handle)
    (paths : List String) :
    ((runAcquires openFn paths []).map Prod.fst).Nodup ∧
    (∀ (cache : EngineCache) (p : String) (h : Handle),
      cache.lookup p = some h →
      get_cached_engine openFn cache p = (.ok h, cache, false)) ∧
    (∀ (cache : EngineCache) (p : String) (h : Handle),
      cache.lookup p = none → openFn p = some h →
      get_cached_engine openFn cache p =
        (.ok h, cache ++ [(p, h)], true)) := by
  refine ⟨runAcquires_nodup openFn paths [] (by simp), ?_, ?_⟩
  · intro cache p h hl
    rw [get_cached_engine.eq_def, hl]
  · intro cache p h hl ho
    rw [get_cached_engine.eq_def, hl, ho]

/-- Witness for `c5_handle_cache_unique`: acquiring `a`, `a`, `b`; the
second acquire of `a` hits the cache. -/
theorem c5_handle_cache_unique_witness :
    ((runAcquires (fun _ => some 7) ["a", "a", "b"] []).map
      Prod.fst).Nodup ∧
    get_cached_engine (fun _ => some 7) [("a", 7)] "a" =
      (.ok 7, [("a", 7)], false) ∧
    get_cached_engine (fun _ => some 7) [("a", 7)] "b" =
      (.ok 7, [("a", 7), ("b", 7)], true) := by
  have h := c5_handle_cache_unique (fun _ => some 7) ["a", "a", "b"]
  exact ⟨h.1, h.2.1 [("a", 7)] "a" 7 rfl, h.2.2 [("a", 7)] "b" 7 rfl rfl⟩

/-- **C6**: when opening the storage for a path fails, `get_cached_engine`
returns an open-failure error naming the path and leaves the cache mapping
unchanged — no entry is inserted, because the open happens before the
insertion — so a later acquire for the same path retries the open (and
succeeds if the open now succeeds). -/
theorem c6_open_failure_no_poison (openFn openFn2 : String → Option Handle)
    (cache : EngineCache) (p : String) (h : Handle)
    (hmiss : cache.lookup p = none) (hfail : openFn p = none) :
    get_cached_engine openFn cache p =
      (.error (.databaseOpenError p), cache, true) ∧
    (openFn2 p = some h →
      get_cached_engine openFn2 cache p =
        (.ok h, cache ++ [(p, h)], true)) := by
  constructor
  · rw [get_cached_engine.eq_def, hmiss, hfail]
  · intro ho
    rw [get_cached_engine.eq_def, hmiss, ho]

/-- Witness for `c6_open_failure_no_poison`: opening `bad` fails and caches
nothing; a retry with a working open succeeds. -/
theorem c6_open_failure_no_poison_witness :
    get_cached_engine (fun _ => none) [("a", 7)] "bad" =
      (.error (.databaseOpenError "bad"), [("a", 7)], true) ∧
    get_cached_engine (fun _ => some 9) [("a", 7)] "bad" =
      (.ok 9, [("a", 7), ("bad", 9)], true) := by
  have h := c6_open_failure_no_poison (fun _ => none) (fun _ => some 9)
    [("a", 7)] "bad" 9 rfl rfl
  exact ⟨h.1, h.2 rfl⟩
